import Mathlib

/-!
Verification development for the DM_halo_models analysis notebooks.

Numeric values that may be NaN (numpy floats produced by a failed or
invalid fit) are embedded as `Option ℚ`: `none` stands for NaN and
`some x` for the finite value `x`.  Division and subtraction propagate
NaN exactly as numpy float arithmetic does.
-/

namespace DMHalo

/-- NaN-propagating subtraction, as in `BIC['NFW'][j]-BIC['DC14'][j]`
on numpy floats: NaN in either operand yields NaN. -/
def subNaN : Option ℚ → Option ℚ → Option ℚ
  | some a, some b => some (a - b)
  | _, _ => none

/-- One ΔBIC interval from `interv_tab`, with `none` bounds standing for
the infinite endpoints `-np.inf` / `np.inf`. -/
structure Interv where
  lo : Option ℚ
  hi : Option ℚ
deriving DecidableEq

/-- Strict lower-bound test `interv_tab[i,0] < x`; the `-inf` bound is
satisfied by every finite value. -/
def ltLo : Option ℚ → ℚ → Bool
  | none, _ => true
  | some a, x => decide (a < x)

/-- Inclusive upper-bound test `x <= interv_tab[i,1]`; the `+inf` bound is
satisfied by every finite value. -/
def leHi : ℚ → Option ℚ → Bool
  | _, none => true
  | x, some b => decide (x ≤ b)

/-- The chained comparison `interv_tab[i,0] < x <= interv_tab[i,1]` on a
finite value. -/
def memInterv (iv : Interv) (x : ℚ) : Bool :=
  ltLo iv.lo x && leHi x iv.hi

/-- `interv_tab=np.asarray([[-np.inf,-6],[-6,-2],[-2,2],[2,6],[6,np.inf]])`
from the checks_DC14_NFW binning cell. -/
def interv_tab : List Interv :=
  [⟨none, some (-6)⟩, ⟨some (-6), some (-2)⟩, ⟨some (-2), some 2⟩,
   ⟨some 2, some 6⟩, ⟨some 6, none⟩]

/-- The membership test applied to `diffin=np.ma.masked_invalid(diffin)`:
a masked (NaN) value fails the chained comparison, so it is counted in no
bin; a finite value is tested against the interval bounds. -/
def maskedMem (iv : Interv) : Option ℚ → Bool
  | none => false
  | some x => memInterv iv x

/-- `diffin=BIC['NFW'][j]-BIC['DC14'][j]` for index `j`; out-of-range
reads give NaN. -/
def diffAt (nfw dc14 : List (Option ℚ)) (j : ℕ) : Option ℚ :=
  subNaN (nfw.getD j none) (dc14.getD j none)

/-- The inner loop of the binning cell: `sum_0` after iterating
`for j in range(len(BIC['NFW']))` and incrementing when the masked
chained comparison holds. -/
def binCount (iv : Interv) (nfw dc14 : List (Option ℚ)) : ℕ :=
  (List.range nfw.length).countP (fun j => maskedMem iv (diffAt nfw dc14 j))

/-- The printed per-bin fraction `sum_0/len(BIC['NFW'])`. -/
def binFrac (iv : Interv) (nfw dc14 : List (Option ℚ)) : ℚ :=
  (binCount iv nfw dc14 : ℚ) / (nfw.length : ℚ)

/-- The five printed fractions, one per interval of `interv_tab`. -/
def binFracs (nfw dc14 : List (Option ℚ)) : List ℚ :=
  interv_tab.map (fun iv => binFrac iv nfw dc14)

/-- A finite value lies in exactly one of the five intervals: the
strict-lower/inclusive-upper tests at the cut points -6, -2, 2, 6
partition the rationals. -/
lemma countP_interv_tab_eq_one (x : ℚ) :
    interv_tab.countP (fun iv => memInterv iv x) = 1 := by
  rcases le_or_lt x (-6) with h1 | h1
  · have n1 : ¬(-6 < x) := not_lt.2 h1
    have n2 : ¬(-2 < x) := by intro h; linarith
    have n3 : ¬(2 < x) := by intro h; linarith
    have n4 : ¬(6 < x) := by intro h; linarith
    simp [interv_tab, List.countP_cons, memInterv, ltLo, leHi, h1, n1, n2, n3, n4]
  · rcases le_or_lt x (-2) with h2 | h2
    · have n1 : ¬(x ≤ -6) := not_le.2 h1
      have n3 : ¬(2 < x) := by intro h; linarith
      have n4 : ¬(6 < x) := by intro h; linarith
      simp [interv_tab, List.countP_cons, memInterv, ltLo, leHi, h1, h2, n1, n3, n4]
    · rcases le_or_lt x 2 with h3 | h3
      · have n1 : ¬(x ≤ -6) := by intro h; linarith
        have n2 : ¬(x ≤ -2) := not_le.2 h2
        have n4 : ¬(6 < x) := by intro h; linarith
        simp [interv_tab, List.countP_cons, memInterv, ltLo, leHi, h2, h3, n1, n2, n4]
      · rcases le_or_lt x 6 with h4 | h4
        · have n1 : ¬(x ≤ -6) := by intro h; linarith
          have n2 : ¬(x ≤ -2) := by intro h; linarith
          have n3 : ¬(x ≤ 2) := not_le.2 h3
          simp [interv_tab, List.countP_cons, memInterv, ltLo, leHi, h3, h4, n1, n2, n3]
        · have n1 : ¬(x ≤ -6) := by intro h; linarith
          have n2 : ¬(x ≤ -2) := by intro h; linarith
          have n3 : ¬(x ≤ 2) := by intro h; linarith
          have n4 : ¬(x ≤ 6) := not_le.2 h4
          simp [interv_tab, List.countP_cons, memInterv, ltLo, leHi, h4, n1, n2, n3, n4]

/-- Per-value hit count: a finite difference is counted in exactly one
interval, a masked (NaN) difference in none. -/
lemma countP_interv_tab_maskedMem (v : Option ℚ) :
    interv_tab.countP (fun iv => maskedMem iv v)
      = if v.isSome then 1 else 0 := by
  cases v with
  | none => simp [interv_tab, List.countP_cons, maskedMem]
  | some x => simpa [maskedMem] using countP_interv_tab_eq_one x

lemma sum_map_add {α : Type} (l : List α) (f g : α → ℕ) :
    (l.map (fun x => f x + g x)).sum = (l.map f).sum + (l.map g).sum := by
  induction l with
  | nil => simp
  | cons a t ih => simp [ih]; omega

lemma sum_map_ite_eq_countP {α : Type} (p : α → Bool) (l : List α) :
    (l.map (fun x => if p x then 1 else 0)).sum = l.countP p := by
  induction l with
  | nil => simp
  | cons a t ih => simp [List.countP_cons, ih]; omega

/-- Summing the five bin counts over any index list counts exactly the
indices whose difference is finite (non-NaN). -/
lemma sum_map_countP_interv (d : ℕ → Option ℚ) (l : List ℕ) :
    (interv_tab.map (fun iv => l.countP (fun j => maskedMem iv (d j)))).sum
      = l.countP (fun j => (d j).isSome) := by
  induction l with
  | nil => simp
  | cons a t ih =>
    calc (interv_tab.map (fun iv => (a :: t).countP (fun j => maskedMem iv (d j)))).sum
        = (interv_tab.map (fun iv => t.countP (fun j => maskedMem iv (d j))
            + (if maskedMem iv (d a) then 1 else 0))).sum := by
          simp only [List.countP_cons]
      _ = (interv_tab.map (fun iv => t.countP (fun j => maskedMem iv (d j)))).sum
            + (interv_tab.map (fun iv => if maskedMem iv (d a) then 1 else 0)).sum :=
          sum_map_add _ _ _
      _ = t.countP (fun j => (d j).isSome)
            + interv_tab.countP (fun iv => maskedMem iv (d a)) := by
          rw [ih, sum_map_ite_eq_countP]
      _ = t.countP (fun j => (d j).isSome) + (if (d a).isSome then 1 else 0) := by
          rw [countP_interv_tab_maskedMem]
      _ = (a :: t).countP (fun j => (d j).isSome) := by
          simp [List.countP_cons]

/-- The list of the five raw bin counts. -/
def binCounts (nfw dc14 : List (Option ℚ)) : List ℕ :=
  interv_tab.map (fun iv => binCount iv nfw dc14)

lemma binCounts_sum (nfw dc14 : List (Option ℚ)) :
    (binCounts nfw dc14).sum
      = (List.range nfw.length).countP (fun j => (diffAt nfw dc14 j).isSome) :=
  sum_map_countP_interv (diffAt nfw dc14) (List.range nfw.length)

lemma binFracs_sum_eq (nfw dc14 : List (Option ℚ)) :
    (binFracs nfw dc14).sum
      = ((binCounts nfw dc14).sum : ℚ) / (nfw.length : ℚ) := by
  simp only [binFracs, binCounts, binFrac, interv_tab, List.map_cons, List.map_nil,
    List.sum_cons, List.sum_nil]
  push_cast
  ring

/-- C1: over a galaxy set in which every galaxy has a non-NaN BIC for
both models (so every ΔBIC is finite), the five printed per-bin fractions
`sum_0/len(BIC['NFW'])` sum to exactly 1: each finite ΔBIC falls in
exactly one of the five strict-lower/inclusive-upper intervals. -/
theorem dBIC_bin_fractions_sum_to_one (nfw dc14 : List (Option ℚ))
    (hlen : 0 < nfw.length)
    (hval : ∀ j, j < nfw.length → (diffAt nfw dc14 j).isSome = true) :
    (binFracs nfw dc14).sum = 1 := by
  have hcount : (List.range nfw.length).countP (fun j => (diffAt nfw dc14 j).isSome)
      = nfw.length := by
    have h := List.countP_eq_length
      (p := fun j => (diffAt nfw dc14 j).isSome) (l := List.range nfw.length)
    rw [h.mpr (fun a ha => hval a (List.mem_range.mp ha)), List.length_range]
  rw [binFracs_sum_eq, binCounts_sum, hcount]
  exact div_self (by exact_mod_cast Nat.pos_iff_ne_zero.mp hlen)

/-- Witness for C1 at the concrete input `nfw = dc14 = [some 0, some 7]`. -/
theorem dBIC_bin_fractions_sum_to_one_witness :
    0 < ([some 0, some 7] : List (Option ℚ)).length ∧
    (∀ j, j < ([some 0, some 7] : List (Option ℚ)).length →
      (diffAt [some 0, some 7] [some 0, some 7] j).isSome = true) ∧
    (binFracs [some 0, some 7] [some 0, some 7]).sum = 1 :=
  ⟨by decide, by decide,
    dBIC_bin_fractions_sum_to_one [some 0, some 7] [some 0, some 7]
      (by decide) (by decide)⟩

/-- The finite differences actually present in both inputs: the values
`BIC['NFW'][j]-BIC['DC14'][j]` over the intersection of galaxies with
non-NaN results in both tables. -/
def validDiffs (nfw dc14 : List (Option ℚ)) : List ℚ :=
  (List.range nfw.length).filterMap (fun j => diffAt nfw dc14 j)

/-- The spec's requirement, as a second definition for comparison with
the code: per-bin fractions computed only over the intersection of
galaxies with non-NaN results in both inputs — both the bin counts and
the denominator range over `validDiffs`. -/
def binFracsIntersect (nfw dc14 : List (Option ℚ)) : List ℚ :=
  interv_tab.map (fun iv =>
    ((validDiffs nfw dc14).countP (fun x => memInterv iv x) : ℚ)
      / ((validDiffs nfw dc14).length : ℚ))

lemma maskedMem_none (iv : Interv) : maskedMem iv none = false := rfl

lemma maskedMem_some (iv : Interv) (x : ℚ) :
    maskedMem iv (some x) = memInterv iv x := rfl

lemma countP_maskedMem_eq_filterMap (iv : Interv) (d : ℕ → Option ℚ) (l : List ℕ) :
    l.countP (fun j => maskedMem iv (d j))
      = (l.filterMap d).countP (fun x => memInterv iv x) := by
  induction l with
  | nil => simp
  | cons a t ih =>
    cases h : d a with
    | none =>
      simp only [List.countP_cons, List.filterMap_cons, h, maskedMem_none, ih]
      simp
    | some x =>
      simp only [List.countP_cons, List.filterMap_cons, h, maskedMem_some, ih]

lemma length_filterMap_eq_countP (d : ℕ → Option ℚ) (l : List ℕ) :
    (l.filterMap d).length = l.countP (fun j => (d j).isSome) := by
  induction l with
  | nil => simp
  | cons a t ih =>
    cases h : d a with
    | none => simp [List.countP_cons, List.filterMap_cons, h, ih]
    | some x => simp [List.countP_cons, List.filterMap_cons, h, ih]

/-- C2 counterexample: with one valid galaxy and one NaN galaxy, the
fractions printed by the binning cell differ from the fractions computed
over the non-NaN intersection — the NaN galaxy stays in the code's
denominator `len(BIC['NFW'])`. -/
theorem dBIC_fracs_not_intersection_only :
    binFracs [some 0, none] [some 0, some 0]
      ≠ binFracsIntersect [some 0, none] [some 0, some 0] := by
  have hd0 : diffAt [some 0, none] [some 0, some 0] 0 = some 0 := by
    show subNaN (some 0) (some 0) = some 0
    norm_num [subNaN]
  have hd1 : diffAt [some 0, none] [some 0, some 0] 1 = none := rfl
  have hrange : List.range 2 = [0, 1] := by decide
  have hvalid : validDiffs [some 0, none] [some 0, some 0] = [0] := by
    simp [validDiffs, hrange, List.filterMap_cons, hd0, hd1]
  have hcount : ∀ iv : Interv,
      binCount iv [some 0, none] [some 0, some 0]
        = if memInterv iv 0 then 1 else 0 := by
    intro iv
    simp [binCount, hrange, List.countP_cons, hd0, hd1, maskedMem]
  intro hEq
  have h2 := congrArg (fun l => l.getD 2 0) hEq
  simp only [binFracs, binFracsIntersect, interv_tab, List.map_cons, List.map_nil] at h2
  rw [show ∀ a b c d e : ℚ, ([a,b,c,d,e] : List ℚ).getD 2 0 = c from fun _ _ _ _ _ => rfl,
      show ∀ a b c d e : ℚ, ([a,b,c,d,e] : List ℚ).getD 2 0 = c from fun _ _ _ _ _ => rfl] at h2
  rw [binFrac, hcount, hvalid] at h2
  have hmem : memInterv ⟨some (-2), some 2⟩ 0 = true := by
    simp [memInterv, ltLo, leHi]
  rw [hmem] at h2
  norm_num [List.countP_cons, List.countP_nil, hmem] at h2

/-- C2 amended: per-bin counts do range only over the intersection of
galaxies with non-NaN results in both inputs (a NaN difference is masked
and counted in no bin), but every printed fraction divides by the full
galaxy count `len(BIC['NFW'])` including the NaN galaxies, so the five
fractions sum to (valid count)/(total count), not necessarily 1. -/
theorem dBIC_bins_mask_NaN_but_denominator_total (nfw dc14 : List (Option ℚ))
    (hlen : 0 < nfw.length) (hcov : nfw.length ≤ dc14.length) :
    (∀ iv : Interv, binCount iv nfw dc14
        = (validDiffs nfw dc14).countP (fun x => memInterv iv x)) ∧
    (binFracs nfw dc14).sum
      = ((validDiffs nfw dc14).length : ℚ) / (nfw.length : ℚ) := by
  constructor
  · intro iv
    exact countP_maskedMem_eq_filterMap iv (diffAt nfw dc14) (List.range nfw.length)
  · rw [binFracs_sum_eq, binCounts_sum, validDiffs, length_filterMap_eq_countP]

/-- Witness for the amended C2 at `nfw = [some 0, none]`,
`dc14 = [some 0, some 0]`: the fractions sum to 1/2. -/
theorem dBIC_bins_mask_NaN_but_denominator_total_witness :
    0 < ([some 0, none] : List (Option ℚ)).length ∧
    ([some 0, none] : List (Option ℚ)).length
      ≤ ([some 0, some 0] : List (Option ℚ)).length ∧
    ((∀ iv : Interv, binCount iv [some 0, none] [some 0, some 0]
        = (validDiffs [some 0, none] [some 0, some 0]).countP (fun x => memInterv iv x)) ∧
      (binFracs [some 0, none] [some 0, some 0]).sum
        = ((validDiffs [some 0, none] [some 0, some 0]).length : ℚ)
            / (([some 0, none] : List (Option ℚ)).length : ℚ)) :=
  ⟨by decide, by decide,
    dBIC_bins_mask_NaN_but_denominator_total [some 0, none] [some 0, some 0]
      (by decide) (by decide)⟩

/-- ΔBIC(A,B) = BIC_A − BIC_B, the per-galaxy model-comparison
statistic; `diffin = BIC['NFW'][j]-BIC['DC14'][j]` instantiates it with
A = NFW, B = DC14, matching the printed label
`dBIC = BIC_NFW - BIC_DC14`. -/
def dBIC (bicA bicB : ℚ) : ℚ := bicA - bicB

/-- C3: for every galaxy index with defined BIC values in both tables,
the `diffin` computed by the binning cell equals ΔBIC(NFW, DC14)
= BIC_NFW − BIC_DC14, the fixed sign convention announced by the
printed header. -/
theorem diffin_eq_dBIC_NFW_DC14 (nfw dc14 : List (Option ℚ)) (j : ℕ) (a b : ℚ)
    (ha : nfw.getD j none = some a) (hb : dc14.getD j none = some b) :
    diffAt nfw dc14 j = some (dBIC a b) := by
  unfold diffAt
  rw [ha, hb]
  rfl

/-- Witness for C3 at `nfw = [some 5]`, `dc14 = [some 2]`, `j = 0`. -/
theorem diffin_eq_dBIC_NFW_DC14_witness :
    ([some 5] : List (Option ℚ)).getD 0 none = some 5 ∧
    ([some 2] : List (Option ℚ)).getD 0 none = some 2 ∧
    diffAt [some 5] [some 2] 0 = some (dBIC 5 2) :=
  ⟨by decide, by decide,
    diffin_eq_dBIC_NFW_DC14 [some 5] [some 2] 0 5 2 (by decide) (by decide)⟩

/-- C4: the per-galaxy BIC difference is antisymmetric in the two
models, both on defined values (ΔBIC(A,B) = −ΔBIC(B,A)) and at the
level of the NaN-propagating subtraction used by the binning cell. -/
theorem dBIC_antisymm :
    (∀ a b : ℚ, dBIC a b = - dBIC b a) ∧
    (∀ u v : Option ℚ, (subNaN u v).map (fun x => -x) = subNaN v u) := by
  constructor
  · intro a b
    unfold dBIC
    ring
  · intro u v
    cases u <;> cases v <;> simp [subNaN, neg_sub]

/-- Modelled from the spec: the Per-Galaxy Fitter
(`pyfiles.fitting.results`, whose implementation is not under src/)
records a convergence failure as a NaN-flagged result instead of
raising, and the batch loop stores one entry per galaxy and continues
with the remaining galaxies.  `batchFit` runs the fitter over every
galaxy name; a `none` entry is the recorded NaN result of a failed
fit. -/
def batchFit (fitter : String → Option ℚ) (names : List String) :
    List (Option ℚ) :=
  names.map fitter

/-- The non-NaN entries of a result column. -/
def validVals (l : List (Option ℚ)) : List ℚ := l.filterMap id

/-- `np.nanmean`: the mean over the non-NaN entries (numpy is an
external collaborator; modelled from its documented semantics), NaN
when no entry is finite. -/
def nanmean (l : List (Option ℚ)) : Option ℚ :=
  if (validVals l).length = 0 then none
  else some ((validVals l).sum / ((validVals l).length : ℚ))

/-- Insertion into an ascending-sorted list. -/
def insortLe (x : ℚ) : List ℚ → List ℚ
  | [] => [x]
  | y :: t => if x ≤ y then x :: y :: t else y :: insortLe x t

/-- Ascending insertion sort. -/
def sortLe : List ℚ → List ℚ
  | [] => []
  | x :: t => insortLe x (sortLe t)

/-- Median of a list of finite values: the middle element of the sorted
list, or the average of the two middle elements for even length; NaN
for an empty list. -/
def median (l : List ℚ) : Option ℚ :=
  if l.length = 0 then none
  else if l.length % 2 = 1 then some ((sortLe l).getD (l.length / 2) 0)
  else some (((sortLe l).getD (l.length / 2 - 1) 0
      + (sortLe l).getD (l.length / 2) 0) / 2)

/-- `np.nanmedian`: the median over the non-NaN entries (numpy is an
external collaborator; modelled from its documented semantics). -/
def nanmedian (l : List (Option ℚ)) : Option ℚ := median (validVals l)

/-- C5: one galaxy's fit failure does not abort the batch: the failed
galaxy `g` is recorded as a NaN entry, the remaining galaxies' results
are kept unchanged, and the check-notebook aggregates `np.nanmean` /
`np.nanmedian` ignore the NaN entry instead of propagating it or
raising. -/
theorem batch_failure_recorded_and_ignored
    (fitter : String → Option ℚ) (names : List String) (g : String)
    (hg : fitter g = none) :
    batchFit fitter (g :: names) = none :: batchFit fitter names ∧
    (batchFit fitter (g :: names)).length = names.length + 1 ∧
    nanmean (batchFit fitter (g :: names)) = nanmean (batchFit fitter names) ∧
    nanmedian (batchFit fitter (g :: names)) = nanmedian (batchFit fitter names) := by
  have h1 : batchFit fitter (g :: names) = none :: batchFit fitter names := by
    simp [batchFit, hg]
  have hv : validVals (none :: batchFit fitter names)
      = validVals (batchFit fitter names) := by
    simp [validVals]
  refine ⟨h1, ?_, ?_, ?_⟩
  · rw [h1]
    simp [batchFit]
  · rw [h1]
    simp only [nanmean, hv]
  · rw [h1]
    simp only [nanmedian, hv]

/-- Witness for C5: the fitter fails on galaxy NGC3109 and succeeds on
NGC5055. -/
theorem batch_failure_recorded_and_ignored_witness :
    (fun n : String => if n = "NGC3109" then none else some (1 : ℚ)) "NGC3109"
      = none ∧
    (batchFit (fun n => if n = "NGC3109" then none else some 1)
        ("NGC3109" :: ["NGC5055"])
      = none :: batchFit (fun n => if n = "NGC3109" then none else some 1)
          ["NGC5055"] ∧
    (batchFit (fun n => if n = "NGC3109" then none else some 1)
        ("NGC3109" :: ["NGC5055"])).length = ["NGC5055"].length + 1 ∧
    nanmean (batchFit (fun n => if n = "NGC3109" then none else some 1)
        ("NGC3109" :: ["NGC5055"]))
      = nanmean (batchFit (fun n => if n = "NGC3109" then none else some 1)
          ["NGC5055"]) ∧
    nanmedian (batchFit (fun n => if n = "NGC3109" then none else some 1)
        ("NGC3109" :: ["NGC5055"]))
      = nanmedian (batchFit (fun n => if n = "NGC3109" then none else some 1)
          ["NGC5055"])) :=
  ⟨by simp,
    batch_failure_recorded_and_ignored
      (fun n => if n = "NGC3109" then none else some 1)
      ["NGC5055"] "NGC3109" (by simp)⟩

/-- Modelled from the spec: BIC = χ² + k·ln N for k free parameters and
N data points (the Per-Galaxy Fitter computing it is not under src/). -/
noncomputable def BIC_stat (chisq : ℝ) (k nPts : ℕ) : ℝ :=
  chisq + (k : ℝ) * Real.log (nPts : ℝ)

/-- Modelled from the spec: the Per-Galaxy Fitter's derived statistics
(not under src/): with dof = N − k, reduced χ² = χ²/dof but NaN (none)
when dof ≤ 0, while BIC is computed unconditionally. -/
noncomputable def deriveStats (chisq : ℝ) (k nPts : ℕ) : Option ℝ × ℝ :=
  (if (nPts : ℤ) - (k : ℤ) ≤ 0 then none
   else some (chisq / (((nPts : ℤ) - (k : ℤ) : ℤ) : ℝ)),
   BIC_stat chisq k nPts)

/-- C6: whenever dof = N − k ≤ 0, the reduced χ² field is NaN while the
BIC field still carries the (finite) value χ² + k·ln N. -/
theorem redchi_nan_when_dof_nonpos (chisq : ℝ) (k nPts : ℕ)
    (hdof : (nPts : ℤ) - (k : ℤ) ≤ 0) :
    (deriveStats chisq k nPts).1 = none ∧
    (deriveStats chisq k nPts).2 = BIC_stat chisq k nPts := by
  constructor
  · simp [deriveStats, hdof]
  · rfl

/-- Witness for C6 at χ² = 1, k = 2, N = 1 (dof = −1). -/
theorem redchi_nan_when_dof_nonpos_witness :
    ((1 : ℤ) - (2 : ℤ) ≤ 0) ∧
    ((deriveStats 1 2 1).1 = none ∧
      (deriveStats 1 2 1).2 = BIC_stat 1 2 1) :=
  ⟨by decide, redchi_nan_when_dof_nonpos 1 2 1 (by decide)⟩

/-- C7: holding χ² and N fixed (χ² ≥ 0, N ≥ 1), BIC is monotonically
non-decreasing in the number of free parameters k. -/
theorem BIC_monotone_in_k (chisq : ℝ) (nPts k1 k2 : ℕ)
    (hchi : 0 ≤ chisq) (hN : 1 ≤ nPts) (hk : k1 ≤ k2) :
    BIC_stat chisq k1 nPts ≤ BIC_stat chisq k2 nPts := by
  unfold BIC_stat
  have hlog : 0 ≤ Real.log (nPts : ℝ) := by
    apply Real.log_nonneg
    exact_mod_cast hN
  have hkr : (k1 : ℝ) ≤ (k2 : ℝ) := by exact_mod_cast hk
  have := mul_le_mul_of_nonneg_right hkr hlog
  linarith

/-- Witness for C7 at χ² = 0, N = 2, k going from 1 to 3. -/
theorem BIC_monotone_in_k_witness :
    (0 : ℝ) ≤ 0 ∧ 1 ≤ 2 ∧ 1 ≤ 3 ∧
    BIC_stat 0 1 2 ≤ BIC_stat 0 3 2 :=
  ⟨le_refl 0, by norm_num, by norm_num,
    BIC_monotone_in_k 0 2 1 3 (le_refl 0) (by norm_num) (by norm_num)⟩

/-- The concatenated per-galaxy statistic column
`np.concatenate((t['Vbulge_none']['Chi_sq'], t['Vbulge']['Chi_sq']))`
from the checks_Einasto_NFW aggregation cell. -/
def chisqAll (noBulge bulge : List ℚ) : List ℚ := noBulge ++ bulge

/-- Summed χ² over a galaxy set: the associative-commutative reduction
applied to the concatenated column. -/
def sumChisq (l : List ℚ) : ℚ := l.sum

/-- C8: the summed χ² computed from the concatenated subsets is
invariant under any permutation of the galaxy entries — per-galaxy
results carry no cross-galaxy state and the reduction is associative
and commutative. -/
theorem sumChisq_perm_invariant (a b c d : List ℚ)
    (h : (chisqAll a b).Perm (chisqAll c d)) :
    sumChisq (chisqAll a b) = sumChisq (chisqAll c d) :=
  h.sum_eq

/-- Witness for C8: the two-galaxy set {1, 2} processed in either
order. -/
theorem sumChisq_perm_invariant_witness :
    (chisqAll [1] [2]).Perm (chisqAll [2] [1]) ∧
    sumChisq (chisqAll [1] [2]) = sumChisq (chisqAll [2] [1]) :=
  ⟨List.Perm.swap 2 1 [],
    sumChisq_perm_invariant [1] [2] [2] [1] (List.Perm.swap 2 1 [])⟩

/-- `prior_tab` from the fits_CDM_all parameter-dictionary cell. -/
def prior_tab : List String :=
  ["uni_priors", "c200_priors_check", "v200_priors_check",
   "MLd_priors_check", "MLb_priors_check"]

/-- `model_tab` from the fits_CDM_all parameter-dictionary cell. -/
def model_tab : List String := ["Burkert", "DC14", "Einasto", "NFW"]

/-- The fits_CDM_all orchestration loop:
`CDM_params_dict[prior_tab[i]][model_tab[j]] =
results_CDM_all(model_tab[j], fit_dict_in=fitting_dict(fit_routine=prior_tab[i])).fit()`
for every prior regime and model.  The per-combination fitter `fit` is a
parameter: its implementation is not under src/, and per the spec it is
a deterministic function of the prior regime and model. -/
def buildCDMParams {α : Type} (fit : String → String → α) :
    List (String × List (String × α)) :=
  prior_tab.map (fun p => (p, model_tab.map (fun m => (m, fit p m))))

/-- C9: the Batch Fit Orchestrator is deterministic — whenever the two
runs' per-combination fit results agree (identical configuration and
galaxy data under a deterministic fitter), the two orchestration runs
produce identical result tables, entry for entry. -/
theorem buildCDMParams_deterministic {α : Type} (fit1 fit2 : String → String → α)
    (h : ∀ p m, fit1 p m = fit2 p m) :
    buildCDMParams fit1 = buildCDMParams fit2 := by
  have hf : fit1 = fit2 := funext (fun p => funext (fun m => h p m))
  rw [hf]

/-- Witness for C9 with the constant fitter. -/
theorem buildCDMParams_deterministic_witness :
    (∀ p m : String,
      (fun _ _ : String => (0 : ℚ)) p m = (fun _ _ : String => (0 : ℚ)) p m) ∧
    buildCDMParams (fun _ _ : String => (0 : ℚ))
      = buildCDMParams (fun _ _ : String => (0 : ℚ)) :=
  ⟨fun _ _ => rfl,
    buildCDMParams_deterministic (fun _ _ => 0) (fun _ _ => 0) (fun _ _ => rfl)⟩

/-- Modelled from the spec: the shape of a check-notebook `fit()` result
(`pyfiles.fitting.results`, not under src/), as accessed by the
notebooks — keyed first by bulge-inclusion subset, with exactly the two
keys `Vbulge_none` and `Vbulge`, each a per-galaxy statistic column. -/
structure CheckTable (α : Type) where
  Vbulge_none : List α
  Vbulge : List α

/-- `np.concatenate((t['Vbulge_none'][stat], t['Vbulge'][stat]))`: the
population over which every check-notebook aggregate (median, mean,
ΔBIC bin fraction) is computed. -/
def concatStat {α : Type} (t : CheckTable α) : List α :=
  t.Vbulge_none ++ t.Vbulge

/-- C10: the aggregation population is the disjoint union of the
bulge-free and bulge subsets — every entry of either subset appears in
the concatenation, nothing else does, and the two subset sizes add up,
so no aggregate is computed over one subset alone. -/
theorem concatStat_is_disjoint_union {α : Type} (t : CheckTable α) :
    (∀ x : α, x ∈ concatStat t ↔ (x ∈ t.Vbulge_none ∨ x ∈ t.Vbulge)) ∧
    (concatStat t).length = t.Vbulge_none.length + t.Vbulge.length := by
  constructor
  · intro x
    simp [concatStat]
  · simp [concatStat]

end DMHalo
